import Mathlib

/-!
Verification development for the cellular-automata forest-succession demo.

The definitions below are a shallow embedding of the simulation core:
`src/spatial_index.rs` (positions, neighbor generation, the position-to-entity
index maintained by component lifecycle hooks), `src/simulation.rs` (tile
kinds, fire susceptibility, the weighted transition sampler, and the three
per-tick passes `spread_fires`, `undisturbed_succession`, `start_fires`,
chained in that order), `src/control_flow.rs` (the simulation control events
and timestep resource) and `src/dev_tools.rs` (the `step` console command).

Floating-point weights and probabilities (`f32`/`f64` in the source) are
modelled as rationals; the random values drawn from the global `WyRand`
entropy source are modelled as explicit roll data passed into each pass, and
separately as a concrete threaded pseudo-random-number state for the
determinism claim.
-/

set_option autoImplicit false

namespace CellularAutomata

/-- The closed tile-kind enumeration from `src/simulation.rs`. -/
inductive TileKind where
  | Meadow
  | Shrubland
  | ShadeIntolerantForest
  | ShadeTolerantForest
  | Water
  | Fire
deriving DecidableEq, Repr

/-- Grid position from `src/spatial_index.rs`: an immutable pair of `i32`
coordinates. -/
structure Position where
  x : Int
  y : Int
deriving DecidableEq, Repr

/-- The four cardinal neighbors of a position, in the source's order:
north, south, east, west (`Position::cardinal_neighbors`). -/
def Position.cardinal_neighbors (p : Position) : List Position :=
  [⟨p.x, p.y + 1⟩, ⟨p.x, p.y - 1⟩, ⟨p.x + 1, p.y⟩, ⟨p.x - 1, p.y⟩]

/-- The grid: the live tiles, each with its position and current kind.
Looked up through the `TileIndex`; positions of live tiles are distinct in
every state the generator produces. -/
abbrev Grid := List (Position × TileKind)

/-- Position lookup, modelling `TileIndex::get` followed by reading the
tile's `TileKind` through the query. -/
def Grid.lookup : Grid → Position → Option TileKind
  | [], _ => none
  | e :: rest, p => if e.1 = p then some e.2 else Grid.lookup rest p

/-- Walk of the cumulative-weight selection performed by rand's
`WeightedIndex` sampling: select the first element whose cumulative weight
exceeds the uniform draw `r`. -/
def pick_weighted {α : Type} (w : α → ℚ) : List α → ℚ → Option α
  | [], _ => none
  | a :: rest, r => if r < w a then some a else pick_weighted w rest (r - w a)

/-- Model of rand's `choose_weighted`: fails (returns `none`, the model of
`Err(WeightError)`) when some weight is negative or the total weight is not
positive (empty or all-zero table); otherwise selects by cumulative weight
using the uniform draw `r` taken from `[0, total)`. -/
def choose_weighted {α : Type} (l : List α) (w : α → ℚ) (r : ℚ) : Option α :=
  if l.any (fun a => decide (w a < 0)) then none
  else if (l.map w).sum ≤ 0 then none
  else pick_weighted w l r

/-- Per-kind fire susceptibility resource from `src/simulation.rs`:
a base multiplier and a partial map of relative susceptibilities. -/
structure FireSusceptibility where
  base_susceptibility : ℚ
  tile_susceptibility : TileKind → Option ℚ

/-- `FireSusceptibility::get`: the susceptibility of a kind, scaled by the
base; missing kinds count as `0.0`. -/
def FireSusceptibility.get (s : FireSusceptibility) (k : TileKind) : ℚ :=
  (s.tile_susceptibility k).getD 0 * s.base_susceptibility

/-- `FireSusceptibility::default` from the source. -/
def defaultFireSusceptibility : FireSusceptibility where
  base_susceptibility := 1 / 1000
  tile_susceptibility := fun k =>
    match k with
    | .Meadow => some (1 / 100)
    | .Shrubland => some (2 / 10)
    | .ShadeIntolerantForest => some (5 / 10)
    | .ShadeTolerantForest => some 1
    | .Water => some 0
    | .Fire => some 0

/-- The `FireSpread` resource: the spread multiplier. -/
structure FireSpread where
  spread_multiplier : ℚ

/-- `FireSpread::default`: multiplier `1e3`. -/
def defaultFireSpread : FireSpread where
  spread_multiplier := 1000

/-- `TileKind::undisturbed_transition_probabilities` from the source,
verbatim weights. -/
def TileKind.undisturbed_transition_probabilities : TileKind → List (TileKind × ℚ)
  | .Meadow => [(.Meadow, 1), (.Shrubland, 1 / 2)]
  | .Shrubland => [(.Shrubland, 1), (.ShadeIntolerantForest, 1 / 2)]
  | .ShadeIntolerantForest => [(.ShadeIntolerantForest, 1), (.ShadeTolerantForest, 1 / 2)]
  | .ShadeTolerantForest => [(.ShadeTolerantForest, 1)]
  | .Water => [(.Water, 1)]
  | .Fire => [(.Fire, 1 / 2), (.Meadow, 1 / 2), (.Shrubland, 1 / 5)]

/-- The `TransitionProbabilities` resource: a partial map from kind to its
weighted outcome table. -/
structure TransitionProbabilities where
  probabilities : TileKind → Option (List (TileKind × ℚ))

/-- `TransitionProbabilities::get`. -/
def TransitionProbabilities.get (tp : TransitionProbabilities) (k : TileKind) :
    Option (List (TileKind × ℚ)) :=
  tp.probabilities k

/-- `TransitionProbabilities::choose_transition`: look up the table for the
kind (`?` on a missing key), sample it with `choose_weighted` (`.ok()?` turns
a sampler error into `None`), and return the selected kind. -/
def TransitionProbabilities.choose_transition (tp : TransitionProbabilities)
    (k : TileKind) (r : ℚ) : Option TileKind :=
  (tp.get k).bind fun l => (choose_weighted l (fun x => x.2) r).map (fun x => x.1)

/-- `TransitionProbabilities::default`: every kind maps to its
`undisturbed_transition_probabilities` table. -/
def defaultTransitionProbabilities : TransitionProbabilities where
  probabilities := fun k => some k.undisturbed_transition_probabilities

/-- One cell's update in the `undisturbed_succession` system: if
`choose_transition` returns a new kind the cell takes it, otherwise (missing
table or sampler error) the kind is silently left unchanged. -/
def undisturbed_succession_cell (tp : TransitionProbabilities) (k : TileKind) (r : ℚ) :
    TileKind :=
  match tp.choose_transition k r with
  | some k' => k'
  | none => k

/-- Pass 2, `undisturbed_succession`: every live tile is updated in place
from its own kind and its own roll. -/
def undisturbed_succession (tp : TransitionProbabilities) (g : Grid)
    (roll : Position → ℚ) : Grid :=
  g.map fun e => (e.1, undisturbed_succession_cell tp e.2 (roll e.1))

/-- One cell's update in the `start_fires` system: a uniform roll below the
cell's scaled susceptibility sets it to `Fire`. -/
def start_fires_cell (susc : FireSusceptibility) (k : TileKind) (r : ℚ) : TileKind :=
  if r < susc.get k then .Fire else k

/-- Pass 3, `start_fires`: every live tile rolls for spontaneous ignition. -/
def start_fires (susc : FireSusceptibility) (g : Grid) (roll : Position → ℚ) : Grid :=
  g.map fun e => (e.1, start_fires_cell susc e.2 (roll e.1))

/-- The per-neighbor check inside `spread_fires`: the neighbor position must
resolve through the tile index, and the uniform roll must be below the
neighbor's susceptibility times the spread multiplier. -/
def catches_fire (susc : FireSusceptibility) (fs : FireSpread) (g : Grid)
    (roll : Position → Position → ℚ) (p q : Position) : Bool :=
  match g.lookup q with
  | some nk => decide (roll p q < susc.get nk * fs.spread_multiplier)
  | none => false

/-- The buffered ignition writes of Pass 1 (`spread_fires`): iterating the
tiles in `order`, each burning tile rolls against each of its existing
cardinal neighbors, and passing rolls enqueue a deferred
`insert(TileKind::Fire)` command for that neighbor. All lookups read the
grid as it stood at the start of the pass. -/
def spread_targets (susc : FireSusceptibility) (fs : FireSpread) (g : Grid)
    (order : List Position) (roll : Position → Position → ℚ) : List Position :=
  order.flatMap fun p =>
    if g.lookup p = some .Fire then
      p.cardinal_neighbors.filter (fun q => catches_fire susc fs g roll p q)
    else []

/-- Applying the buffered commands at the pass boundary: every targeted tile
becomes `Fire`. -/
def apply_fires (g : Grid) (targets : List Position) : Grid :=
  g.map fun e => if e.1 ∈ targets then (e.1, TileKind.Fire) else e

/-- Pass 1, `spread_fires`: compute the buffered writes from the
start-of-pass snapshot, then apply them. -/
def spread_fires (susc : FireSusceptibility) (fs : FireSpread) (g : Grid)
    (order : List Position) (roll : Position → Position → ℚ) : Grid :=
  apply_fires g (spread_targets susc fs g order roll)

/-- The random rolls consumed by one tick: one per (burning tile, neighbor)
pair in Pass 1, one per tile in Pass 2, one per tile in Pass 3. -/
structure TickRolls where
  pass1 : Position → Position → ℚ
  pass2 : Position → ℚ
  pass3 : Position → ℚ

/-- Uniform rolls drawn by `rng.random_range(0.0..1.0)` are nonnegative. -/
def TickRolls.Nonneg (r : TickRolls) : Prop :=
  (∀ p q, 0 ≤ r.pass1 p q) ∧ (∀ p, 0 ≤ r.pass3 p)

/-- One simulation tick: the `Simulation` schedule runs
`(spread_fires, undisturbed_succession, start_fires).chain()`, each pass's
deferred writes being applied before the next pass starts. -/
def tick (susc : FireSusceptibility) (fs : FireSpread) (tp : TransitionProbabilities)
    (g : Grid) (r : TickRolls) : Grid :=
  start_fires susc
    (undisturbed_succession tp
      (spread_fires susc fs g (g.map (fun e => e.1)) r.pass1)
      r.pass2)
    r.pass3

/-- Iterated ticks, one `TickRolls` per tick. -/
def ticks (susc : FireSusceptibility) (fs : FireSpread) (tp : TransitionProbabilities)
    (g : Grid) : List TickRolls → Grid
  | [] => g
  | r :: rest => ticks susc fs tp (tick susc fs tp g r) rest

/-- One cell's update in `randomize_land_tiles` (`src/map_generation.rs`):
Water tiles are skipped; each land tile takes
`weights.choose_weighted(..).unwrap().0`, the `unwrap` modelled as `none` =
panic (fail fast). -/
def randomize_land_tile (weights : List (TileKind × ℚ)) (k : TileKind) (r : ℚ) :
    Option TileKind :=
  if k = .Water then some k
  else (choose_weighted weights (fun x => x.2) r).map (fun x => x.1)

/-- The simulation control states; the `SimState` enumeration is declared in
the crate root (not among the provided sources) but all three variants are
fixed by their uses in `src/control_flow.rs`, `src/map_generation.rs` and
`src/dev_tools.rs`. -/
inductive SimState where
  | Generate
  | Run
  | Paused
deriving DecidableEq, Repr

/-- The control events of `src/control_flow.rs`. -/
inductive ControlEvent where
  | ResetSimulation
  | PauseSimulation
  | UnpauseSimulation
  | StepSimulation
  | SetSimulationTimestep (milliseconds : ℕ)
deriving DecidableEq, Repr

/-- `step_command` from `src/dev_tools.rs`: when Paused it only emits a
`StepSimulation` event (the state stays Paused); when Run or Generate it
first sets the next state to Paused and also emits the event. -/
def step_command : SimState → SimState × List ControlEvent
  | .Paused => (.Paused, [.StepSimulation])
  | .Run => (.Paused, [.StepSimulation])
  | .Generate => (.Paused, [.StepSimulation])

/-- `step_simulation` runs under `run_if(on_event::<StepSimulation>)` and
invokes `run_simulation` once, which runs the `Simulation` schedule — one
tick — whenever at least one `StepSimulation` event is pending. -/
def step_ticks (events : List ControlEvent) : ℕ :=
  if ControlEvent.StepSimulation ∈ events then 1 else 0

/-- `SimulationStepTime` is initialised to 1000 milliseconds
(`Duration::from_millis(1000)` in `ControlFlowPlugin::build`). -/
def initialSimulationStepTime : ℕ := 1000

/-- `update_simulation_timestep` from `src/control_flow.rs`: for each
`SetSimulationTimestep` event read this frame, overwrite the stored step
time with `Duration::from_millis(event.milliseconds)` — no validation of any
kind. Durations are in milliseconds (`u64`, modelled as ℕ). -/
def update_simulation_timestep (cur : ℕ) (events : List ℕ) : ℕ :=
  events.foldl (fun _ ms => ms) cur

/-- The single next more mature successional kind; Water and
ShadeTolerantForest succeed only to themselves. -/
def nextStage : TileKind → TileKind
  | .Meadow => .Shrubland
  | .Shrubland => .ShadeIntolerantForest
  | .ShadeIntolerantForest => .ShadeTolerantForest
  | .ShadeTolerantForest => .ShadeTolerantForest
  | .Water => .Water
  | .Fire => .Fire

/-- Successional maturity rank (Water and Fire sit outside the succession
ladder and only matter as fixed points here). -/
def stage : TileKind → ℕ
  | .Meadow => 0
  | .Shrubland => 1
  | .ShadeIntolerantForest => 2
  | .ShadeTolerantForest => 3
  | .Water => 0
  | .Fire => 0

/-- Entities are modelled as their numeric ids. -/
abbrev Entity := ℕ

/-- The world state relevant to the index: the live tile entities with their
(immutable) positions, and the contents of `TileIndex.tiles`
(`src/spatial_index.rs`). -/
structure IndexState where
  cells : List (Entity × Position)
  index : List (Position × Entity)

/-- The initial world: no tiles, `TileIndex::default` empty. -/
def emptyIndexState : IndexState := ⟨[], []⟩

/-- `HashMap::insert` on the association-list model of `TileIndex.tiles`:
the new binding replaces any existing binding of the same key. -/
def idxInsert (idx : List (Position × Entity)) (p : Position) (e : Entity) :
    List (Position × Entity) :=
  (p, e) :: idx.filter (fun q => decide (q.1 ≠ p))

/-- `HashMap::remove` by key. -/
def idxRemove (idx : List (Position × Entity)) (p : Position) :
    List (Position × Entity) :=
  idx.filter (fun q => decide (q.1 ≠ p))

/-- Looking up a live entity's position (the `deferred_world.get::<Position>`
done by both hooks). -/
def cellsLookup : List (Entity × Position) → Entity → Option Position
  | [], _ => none
  | c :: rest, e => if c.1 = e then some c.2 else cellsLookup rest e

/-- The operations of the claim: spawning a tile with a `Position` and
despawning a tile. -/
inductive IndexOp where
  | spawn (e : Entity) (p : Position)
  | despawn (e : Entity)

/-- Applying one operation together with the `Position` component lifecycle
hooks: `on_insert` (`add_position_to_index`) inserts the spawned entity
under its position key, and `on_replace` (`remove_position_from_index`),
which runs when a despawned entity's `Position` is removed, removes that
position key from the map. Despawning a non-live entity does nothing. -/
def applyOp (s : IndexState) : IndexOp → IndexState
  | .spawn e p => ⟨(e, p) :: s.cells, idxInsert s.index p e⟩
  | .despawn e =>
    match cellsLookup s.cells e with
    | some p => ⟨s.cells.filter (fun c => decide (c.1 ≠ e)), idxRemove s.index p⟩
    | none => s

/-- Applying a sequence of operations in order. -/
def applyOps (s : IndexState) : List IndexOp → IndexState
  | [] => s
  | op :: rest => applyOps (applyOp s op) rest

/-- Freshness of every spawn relative to the state it executes in: the
spawned entity is not already live and no live cell already occupies the
position. -/
def ValidOps (s : IndexState) : List IndexOp → Prop
  | [] => True
  | .spawn e p :: rest =>
    cellsLookup s.cells e = none ∧ p ∉ s.cells.map (fun c => c.2) ∧
      ValidOps (applyOp s (.spawn e p)) rest
  | .despawn e :: rest => ValidOps (applyOp s (.despawn e)) rest

/-- The cells–index correspondence: an entity owns a position exactly when
the index maps that position to it. -/
def InSync (s : IndexState) : Prop :=
  ∀ e p, (e, p) ∈ s.cells ↔ (p, e) ∈ s.index

/-- The full bijection invariant: the correspondence plus distinctness of
positions, of entities, and of index keys, so index entries and live cells
are in one-to-one correspondence. -/
def GoodState (s : IndexState) : Prop :=
  InSync s ∧ (s.cells.map fun c => c.2).Nodup ∧ (s.cells.map fun c => c.1).Nodup ∧
    (s.index.map fun q => q.1).Nodup

/-- One step of the WyRand generator backing the global entropy resource
(`GlobalEntropy<WyRand>`): the 64-bit state advances by a fixed odd constant
and the output folds the 128-bit product of the new state with a xor of it.
Returns (output, new state). -/
def wyrand_next (state : ℕ) : ℕ × ℕ :=
  let s := (state + 0xa0761d6478bd642f) % 2 ^ 64
  let t := s * (Nat.xor s 0xe7037ed1a0b428db)
  (Nat.xor (t % 2 ^ 64) (t / 2 ^ 64), s)

/-- The deterministically seedable shared entropy state. -/
structure Rng where
  state : ℕ

/-- Draw one 64-bit value, advancing the shared state. -/
def Rng.next_u64 (r : Rng) : ℕ × Rng :=
  ((wyrand_next r.state).1, ⟨(wyrand_next r.state).2⟩)

/-- `rng.random_range(0.0..1.0)`: the standard uniform draw takes the top 53
bits of one 64-bit output, modelled exactly as a rational in `[0, 1)`. -/
def Rng.roll_unit (r : Rng) : ℚ × Rng :=
  (((r.next_u64.1 / 2 ^ 11 : ℕ) : ℚ) / 2 ^ 53, r.next_u64.2)

/-- The inner neighbor loop of `spread_fires` with the shared rng threaded
in iteration order: one uniform draw per neighbor that resolves through the
tile index. -/
def neighbor_rolls_rng (susc : FireSusceptibility) (fs : FireSpread) (g : Grid) :
    List Position → Rng → List Position × Rng
  | [], r => ([], r)
  | q :: qs, r =>
    match g.lookup q with
    | none => neighbor_rolls_rng susc fs g qs r
    | some nk =>
      let d := Rng.roll_unit r
      let rest := neighbor_rolls_rng susc fs g qs d.2
      (if d.1 < susc.get nk * fs.spread_multiplier then q :: rest.1 else rest.1, rest.2)

/-- The outer loop of `spread_fires` over the tile query, threading the
rng. -/
def spread_targets_rng (susc : FireSusceptibility) (fs : FireSpread) (g : Grid) :
    List (Position × TileKind) → Rng → List Position × Rng
  | [], r => ([], r)
  | (p, k) :: rest, r =>
    if k = .Fire then
      let d := neighbor_rolls_rng susc fs g p.cardinal_neighbors r
      let drest := spread_targets_rng susc fs g rest d.2
      (d.1 ++ drest.1, drest.2)
    else spread_targets_rng susc fs g rest r

/-- Pass 1 with the threaded rng: buffered targets computed from the
start-of-pass snapshot, applied at the pass boundary. -/
def spread_fires_rng (susc : FireSusceptibility) (fs : FireSpread) (g : Grid)
    (r : Rng) : Grid × Rng :=
  let t := spread_targets_rng susc fs g g r
  (apply_fires g t.1, t.2)

/-- `choose_transition` with the threaded rng: the sampler draws its uniform
value in `[0, total)` only after the table passes validation; on a missing
or invalid table the rng is untouched and the kind is left unchanged. -/
def succession_cell_rng (tp : TransitionProbabilities) (k : TileKind) (r : Rng) :
    TileKind × Rng :=
  match tp.get k with
  | none => (k, r)
  | some l =>
    if l.any (fun a => decide (a.2 < 0)) then (k, r)
    else if (l.map fun a => a.2).sum ≤ 0 then (k, r)
    else
      let d := Rng.roll_unit r
      match pick_weighted (fun a => a.2) l (d.1 * (l.map fun a => a.2).sum) with
      | some x => (x.1, d.2)
      | none => (k, d.2)

/-- Pass 2 with the threaded rng, in iteration order. -/
def undisturbed_succession_rng (tp : TransitionProbabilities) :
    Grid → Rng → Grid × Rng
  | [], r => ([], r)
  | (p, k) :: rest, r =>
    let d := succession_cell_rng tp k r
    let drest := undisturbed_succession_rng tp rest d.2
    ((p, d.1) :: drest.1, drest.2)

/-- Pass 3 with the threaded rng: every tile draws one uniform roll. -/
def start_fires_rng (susc : FireSusceptibility) : Grid → Rng → Grid × Rng
  | [], r => ([], r)
  | (p, k) :: rest, r =>
    let d := Rng.roll_unit r
    let drest := start_fires_rng susc rest d.2
    ((p, if d.1 < susc.get k then TileKind.Fire else k) :: drest.1, drest.2)

/-- One tick with the shared rng threaded through the chained passes. -/
def tick_rng (susc : FireSusceptibility) (fs : FireSpread)
    (tp : TransitionProbabilities) (g : Grid) (r : Rng) : Grid × Rng :=
  let s1 := spread_fires_rng susc fs g r
  let s2 := undisturbed_succession_rng tp s1.1 s1.2
  start_fires_rng susc s2.1 s2.2

/-- The sequence of per-tick grid snapshots of a run from a given initial
grid and seed state. -/
def snapshots_rng (susc : FireSusceptibility) (fs : FireSpread)
    (tp : TransitionProbabilities) : Grid → Rng → ℕ → List Grid
  | _, _, 0 => []
  | g, r, n + 1 =>
    let t := tick_rng susc fs tp g r
    t.1 :: snapshots_rng susc fs tp t.1 t.2 n

/-! Helper lemmas about lookups in the pass functions. -/

theorem Grid.lookup_map_vals (g : Grid) (f : Position → TileKind → TileKind) (p : Position) :
    Grid.lookup (g.map fun e => (e.1, f e.1 e.2)) p = (g.lookup p).map (f p) := by
  induction g with
  | nil => rfl
  | cons e rest ih =>
    by_cases h : e.1 = p
    · simp [Grid.lookup, h]
    · simp [Grid.lookup, h, ih]

theorem lookup_undisturbed_succession (tp : TransitionProbabilities) (g : Grid)
    (roll : Position → ℚ) (p : Position) :
    (undisturbed_succession tp g roll).lookup p =
      (g.lookup p).map (fun k => undisturbed_succession_cell tp k (roll p)) := by
  simpa [undisturbed_succession] using
    Grid.lookup_map_vals g (fun q k => undisturbed_succession_cell tp k (roll q)) p

theorem lookup_start_fires (susc : FireSusceptibility) (g : Grid)
    (roll : Position → ℚ) (p : Position) :
    (start_fires susc g roll).lookup p =
      (g.lookup p).map (fun k => start_fires_cell susc k (roll p)) := by
  simpa [start_fires] using
    Grid.lookup_map_vals g (fun q k => start_fires_cell susc k (roll q)) p

theorem lookup_apply_fires (g : Grid) (targets : List Position) (p : Position) :
    (apply_fires g targets).lookup p =
      (g.lookup p).map (fun k => if p ∈ targets then TileKind.Fire else k) := by
  have h : apply_fires g targets =
      g.map fun e => (e.1, if e.1 ∈ targets then TileKind.Fire else e.2) := by
    unfold apply_fires
    apply List.map_congr_left
    intro e _
    by_cases h : e.1 ∈ targets <;> simp [h]
  rw [h]
  exact Grid.lookup_map_vals g (fun q k => if q ∈ targets then TileKind.Fire else k) p

theorem catches_fire_iff (susc : FireSusceptibility) (fs : FireSpread) (g : Grid)
    (roll : Position → Position → ℚ) (p q : Position) :
    catches_fire susc fs g roll p q = true ↔
      ∃ nk, g.lookup q = some nk ∧ roll p q < susc.get nk * fs.spread_multiplier := by
  unfold catches_fire
  cases h : g.lookup q with
  | none => simp
  | some nk => simp [h]

theorem mem_spread_targets (susc : FireSusceptibility) (fs : FireSpread) (g : Grid)
    (order : List Position) (roll : Position → Position → ℚ) (q : Position) :
    q ∈ spread_targets susc fs g order roll ↔
      ∃ p, p ∈ order ∧ g.lookup p = some .Fire ∧ q ∈ p.cardinal_neighbors ∧
        ∃ nk, g.lookup q = some nk ∧ roll p q < susc.get nk * fs.spread_multiplier := by
  unfold spread_targets
  rw [List.mem_flatMap]
  constructor
  · rintro ⟨p, hp, hq⟩
    by_cases hf : g.lookup p = some .Fire
    · simp only [hf, if_true, eq_self_iff_true, List.mem_filter] at hq
      exact ⟨p, hp, hf, hq.1, (catches_fire_iff susc fs g roll p q).mp hq.2⟩
    · simp [hf] at hq
  · rintro ⟨p, hp, hf, hn, hc⟩
    refine ⟨p, hp, ?_⟩
    simp only [hf, if_true, eq_self_iff_true, List.mem_filter]
    exact ⟨hn, (catches_fire_iff susc fs g roll p q).mpr hc⟩

/-- The cardinal-neighbor relation is symmetric. -/
theorem cardinal_neighbors_symm (p q : Position) :
    q ∈ p.cardinal_neighbors → p ∈ q.cardinal_neighbors := by
  obtain ⟨px, py⟩ := p
  obtain ⟨qx, qy⟩ := q
  intro h
  simp only [Position.cardinal_neighbors, List.mem_cons, List.not_mem_nil, or_false,
    Position.mk.injEq] at h ⊢
  omega

/-- C1: within Pass 1 (`spread_fires`) all neighbor reads observe the grid as
of the start of the pass and ignition writes are buffered to the pass
boundary; consequently the pass result does not depend on the iteration
order of the tiles, and any cell that is newly `Fire` after Pass 1 had a
cardinal neighbor that was already `Fire` at the start of the pass — a cell
ignited during the pass never ignites its own neighbors in the same tick,
so fire spreads at most one ring per tick. -/
theorem C1_spread_buffered_one_ring (susc : FireSusceptibility) (fs : FireSpread)
    (g : Grid) (o1 o2 : List Position) (roll : Position → Position → ℚ) (q : Position)
    (horder : ∀ p, p ∈ o1 ↔ p ∈ o2)
    (hq : g.lookup q ≠ some .Fire)
    (hfire : (spread_fires susc fs g o1 roll).lookup q = some .Fire) :
    spread_fires susc fs g o1 roll = spread_fires susc fs g o2 roll ∧
    ∃ n ∈ q.cardinal_neighbors, g.lookup n = some .Fire := by
  constructor
  · unfold spread_fires apply_fires
    apply List.map_congr_left
    intro e _
    have hmem : e.1 ∈ spread_targets susc fs g o1 roll ↔
        e.1 ∈ spread_targets susc fs g o2 roll := by
      rw [mem_spread_targets, mem_spread_targets]
      constructor
      · rintro ⟨p, hp, rest⟩; exact ⟨p, (horder p).mp hp, rest⟩
      · rintro ⟨p, hp, rest⟩; exact ⟨p, (horder p).mpr hp, rest⟩
    exact if_congr hmem rfl rfl
  · rw [spread_fires, lookup_apply_fires] at hfire
    cases hg : g.lookup q with
    | none => rw [hg] at hfire; simp at hfire
    | some k =>
      rw [hg] at hfire
      simp only [Option.map_some', Option.some.injEq] at hfire
      by_cases ht : q ∈ spread_targets susc fs g o1 roll
      · obtain ⟨p, _, hpfire, hqn, _⟩ := (mem_spread_targets susc fs g o1 roll q).mp ht
        exact ⟨p, cardinal_neighbors_symm p q hqn, hpfire⟩
      · rw [if_neg ht] at hfire
        exact absurd (hg.trans (congrArg some hfire)) hq

/-- Witness for C1: a two-tile grid with a fire at the origin and a meadow
north of it; with roll 0 the meadow ignites, the result agrees for the two
opposite iteration orders, and the ignited cell's burning neighbor was the
origin. -/
theorem C1_spread_buffered_one_ring_witness :
    (Grid.lookup [(⟨0, 0⟩, .Fire), (⟨0, 1⟩, .Meadow)] ⟨0, 1⟩ ≠ some .Fire) ∧
    (spread_fires defaultFireSusceptibility defaultFireSpread
        [(⟨0, 0⟩, .Fire), (⟨0, 1⟩, .Meadow)] [⟨0, 0⟩, ⟨0, 1⟩]
        (fun _ _ => 0)).lookup ⟨0, 1⟩ = some .Fire ∧
    (spread_fires defaultFireSusceptibility defaultFireSpread
        [(⟨0, 0⟩, .Fire), (⟨0, 1⟩, .Meadow)] [⟨0, 0⟩, ⟨0, 1⟩] (fun _ _ => 0) =
      spread_fires defaultFireSusceptibility defaultFireSpread
        [(⟨0, 0⟩, .Fire), (⟨0, 1⟩, .Meadow)] [⟨0, 1⟩, ⟨0, 0⟩] (fun _ _ => 0) ∧
    ∃ n ∈ Position.cardinal_neighbors ⟨0, 1⟩,
      Grid.lookup [(⟨0, 0⟩, .Fire), (⟨0, 1⟩, .Meadow)] n = some .Fire) :=
  ⟨by decide, by
    norm_num [spread_fires, apply_fires, spread_targets, catches_fire, Grid.lookup,
      Position.cardinal_neighbors, defaultFireSusceptibility, defaultFireSpread,
      FireSusceptibility.get],
    C1_spread_buffered_one_ring defaultFireSusceptibility defaultFireSpread
      [(⟨0, 0⟩, .Fire), (⟨0, 1⟩, .Meadow)] [⟨0, 0⟩, ⟨0, 1⟩] [⟨0, 1⟩, ⟨0, 0⟩]
      (fun _ _ => 0) ⟨0, 1⟩
      (fun p => by simp only [List.mem_cons, List.not_mem_nil, or_false]; exact or_comm)
      (by decide) (by
        norm_num [spread_fires, apply_fires, spread_targets, catches_fire, Grid.lookup,
          Position.cardinal_neighbors, defaultFireSusceptibility, defaultFireSpread,
          FireSusceptibility.get])⟩

/-- Counterexample to C2: in the two-tile grid with a fire at the origin and
a meadow north of it, the meadow is newly ignited in Pass 1 (it is `Fire`
after `spread_fires`), yet Pass 2 still applies a succession roll to it that
same tick: with roll `1/2` on Fire's table it transitions to `Meadow`
(instantly burning out), whereas under the claim it would not roll and would
remain `Fire`. -/
theorem C2_counterexample :
    (spread_fires defaultFireSusceptibility defaultFireSpread
        [(⟨0, 0⟩, .Fire), (⟨0, 1⟩, .Meadow)] [⟨0, 0⟩, ⟨0, 1⟩]
        (fun _ _ => 0)).lookup ⟨0, 1⟩ = some .Fire ∧
    (undisturbed_succession defaultTransitionProbabilities
        (spread_fires defaultFireSusceptibility defaultFireSpread
          [(⟨0, 0⟩, .Fire), (⟨0, 1⟩, .Meadow)] [⟨0, 0⟩, ⟨0, 1⟩] (fun _ _ => 0))
        (fun _ => 1 / 2)).lookup ⟨0, 1⟩ = some .Meadow := by
  constructor <;>
    norm_num [spread_fires, apply_fires, spread_targets, catches_fire, Grid.lookup,
      Position.cardinal_neighbors, defaultFireSusceptibility, defaultFireSpread,
      FireSusceptibility.get, undisturbed_succession, undisturbed_succession_cell,
      defaultTransitionProbabilities, TransitionProbabilities.choose_transition,
      TransitionProbabilities.get, choose_weighted, pick_weighted,
      TileKind.undisturbed_transition_probabilities]

/-- C2 (amended): in Pass 2 the weighted succession roll is applied to every
cell of the post-Pass-1 grid — including cells just set on fire in Pass 1,
which roll under Fire's own table that same tick, exactly like cells that
were already burning before the tick. -/
theorem C2_pass2_rolls_every_cell (susc : FireSusceptibility) (fs : FireSpread)
    (tp : TransitionProbabilities) (g : Grid) (r : TickRolls) (p : Position) :
    (tick susc fs tp g r).lookup p =
      ((spread_fires susc fs g (g.map fun e => e.1) r.pass1).lookup p).map
        (fun k => start_fires_cell susc
          (undisturbed_succession_cell tp k (r.pass2 p)) (r.pass3 p)) := by
  simp only [tick, lookup_start_fires, lookup_undisturbed_succession, Option.map_map]
  rfl

/-- Counterexample to C3: a transition table that is present but empty makes
`choose_transition` return `None` (the `.ok()?` swallows the sampler error),
and `undisturbed_succession` then silently leaves the cell's kind unchanged —
precisely the silent default the claim rules out. -/
theorem C3_counterexample :
    TransitionProbabilities.choose_transition ⟨fun _ => some []⟩ .Meadow 0 = none ∧
    undisturbed_succession_cell ⟨fun _ => some []⟩ .Meadow 0 = .Meadow := by
  constructor <;>
    norm_num [TransitionProbabilities.choose_transition, TransitionProbabilities.get,
      undisturbed_succession_cell, choose_weighted, pick_weighted]

/-- C3 (amended): on an empty or all-zero weight table the sampler itself
fails with a distinguishable error (`none`), never selecting a default
outcome, and `randomize_land_tiles` propagates that failure as a panic
(fail fast); but `choose_transition` converts the error to `None` and the
Pass 2 succession then silently leaves the cell's kind unchanged. -/
theorem C3_empty_table_behavior (w : List (TileKind × ℚ))
    (tp : TransitionProbabilities) (k : TileKind) (r : ℚ)
    (hw : w = [] ∨ ∀ x ∈ w, x.2 = 0) :
    choose_weighted w (fun x => x.2) r = none ∧
    (tp.choose_transition k r = none → undisturbed_succession_cell tp k r = k) ∧
    (k ≠ .Water → randomize_land_tile w k r = none) := by
  have hnone : choose_weighted w (fun x => x.2) r = none := by
    rcases hw with rfl | hz
    · rfl
    · unfold choose_weighted
      have hsum : (w.map fun x => x.2).sum ≤ 0 := by
        have : (w.map fun x => x.2).sum = 0 :=
          List.sum_eq_zero (by intro x hx; obtain ⟨y, hy, rfl⟩ := List.mem_map.mp hx; exact hz y hy)
        rw [this]
      have hneg : (w.any fun a => decide (a.2 < 0)) = false := by
        rw [List.any_eq_false]
        intro x hx
        rw [hz x hx]
        simp
      rw [hneg, if_neg (by simp), if_pos hsum]
  refine ⟨hnone, ?_, ?_⟩
  · intro h
    unfold undisturbed_succession_cell
    rw [h]
  · intro hk
    unfold randomize_land_tile
    rw [if_neg hk, hnone]
    rfl

/-- Witness for C3's amended statement at the all-zero table
`[(Meadow, 0)]` and the empty-table transition resource. -/
theorem C3_empty_table_behavior_witness :
    choose_weighted [(TileKind.Meadow, (0 : ℚ))] (fun x => x.2) 0 = none ∧
    (TransitionProbabilities.choose_transition ⟨fun _ => some []⟩ .Shrubland 0 = none →
      undisturbed_succession_cell ⟨fun _ => some []⟩ .Shrubland 0 = .Shrubland) ∧
    (TileKind.Shrubland ≠ .Water →
      randomize_land_tile [(TileKind.Meadow, (0 : ℚ))] .Shrubland 0 = none) :=
  C3_empty_table_behavior [(TileKind.Meadow, (0 : ℚ))] ⟨fun _ => some []⟩ .Shrubland 0
    (Or.inr (by intro x hx; simp at hx; rw [hx]))

/-- C8: a step command issued while Running transitions the state to Paused
and still applies exactly one tick; issued while Paused it leaves the state
Paused and applies exactly one tick. -/
theorem C8_step_pauses_and_ticks_once :
    (step_command .Run).1 = .Paused ∧ step_ticks (step_command .Run).2 = 1 ∧
    (step_command .Paused).1 = .Paused ∧ step_ticks (step_command .Paused).2 = 1 := by
  decide

/-- Counterexample to C9: a `set_timestep 0` command is silently accepted —
the stored tick interval becomes 0 ms, which is not positive, and no failure
is reported. -/
theorem C9_counterexample :
    update_simulation_timestep initialSimulationStepTime [0] = 0 ∧
    ¬ 0 < update_simulation_timestep initialSimulationStepTime [0] := by
  decide

/-- C9 (amended): `update_simulation_timestep` performs no validation: after
any sequence of set-timestep commands the stored interval is simply the last
command's duration (or the prior value if there was none), so a non-positive
duration such as 0 ms is accepted and the interval stays positive only if
every issued duration is positive. -/
theorem C9_timestep_last_wins (cur : ℕ) (evs : List ℕ) :
    update_simulation_timestep cur evs = evs.getLast?.getD cur := by
  induction evs generalizing cur with
  | nil => rfl
  | cons a l ih =>
    cases l with
    | nil => rfl
    | cons b l2 =>
      have hstep : update_simulation_timestep cur (a :: b :: l2) =
          update_simulation_timestep a (b :: l2) := rfl
      rw [hstep, ih a, List.getLast?_cons_cons]
      cases h : (b :: l2).getLast? with
      | none => exact absurd h (by simp)
      | some v => rfl

/-- C6: the spontaneous-ignition threshold applied by `start_fires` to a
cell of kind `k` is exactly `tile_susceptibility(k) × base_susceptibility`
(the per-kind value times the global multiplier), and the contagion
threshold applied by `spread_fires` to a neighbor of kind `nk` is exactly
`tile_susceptibility(nk) × base_susceptibility × spread_multiplier` (the
neighbor's globally scaled susceptibility times the spread multiplier) —
the global and spread multipliers are two independently acting scale
factors. -/
theorem C6_threshold_composition (susc : FireSusceptibility) (fs : FireSpread)
    (g : Grid) (order : List Position) (roll1 : Position → Position → ℚ)
    (roll3 : Position → ℚ) (p q : Position) :
    ((start_fires susc g roll3).lookup p = some .Fire ↔
      g.lookup p = some .Fire ∨
      ∃ k, g.lookup p = some k ∧
        roll3 p < (susc.tile_susceptibility k).getD 0 * susc.base_susceptibility) ∧
    (q ∈ spread_targets susc fs g order roll1 ↔
      ∃ b, b ∈ order ∧ g.lookup b = some .Fire ∧ q ∈ b.cardinal_neighbors ∧
        ∃ nk, g.lookup q = some nk ∧
          roll1 b q < (susc.tile_susceptibility nk).getD 0 * susc.base_susceptibility *
            fs.spread_multiplier) := by
  constructor
  · rw [lookup_start_fires]
    cases hg : g.lookup p with
    | none => simp
    | some k =>
      simp only [Option.map_some', Option.some.injEq]
      unfold start_fires_cell FireSusceptibility.get
      by_cases hlt : roll3 p < (susc.tile_susceptibility k).getD 0 * susc.base_susceptibility
      · rw [if_pos hlt]
        exact ⟨fun _ => Or.inr ⟨k, rfl, hlt⟩, fun _ => rfl⟩
      · rw [if_neg hlt]
        constructor
        · intro h
          exact Or.inl h
        · rintro (h | ⟨k', hk', hlt'⟩)
          · exact h
          · exact absurd (hk'.symm ▸ hlt') hlt
  · rw [mem_spread_targets]
    simp only [FireSusceptibility.get]

/-! Water invariance (C5). -/

theorem water_preserved_spread (g : Grid) (order : List Position)
    (roll : Position → Position → ℚ) (hroll : ∀ a b, 0 ≤ roll a b) (p : Position)
    (hw : g.lookup p = some .Water) :
    (spread_fires defaultFireSusceptibility defaultFireSpread g order roll).lookup p =
      some .Water := by
  rw [spread_fires, lookup_apply_fires, hw]
  have hnot : p ∉ spread_targets defaultFireSusceptibility defaultFireSpread g order roll := by
    intro hmem
    obtain ⟨b, _, _, _, nk, hnk, hlt⟩ :=
      (mem_spread_targets defaultFireSusceptibility defaultFireSpread g order roll p).mp hmem
    have hk : nk = .Water := Option.some.inj (hnk.symm.trans hw)
    rw [hk] at hlt
    have hzero : defaultFireSusceptibility.get .Water *
        defaultFireSpread.spread_multiplier = 0 := by
      norm_num [FireSusceptibility.get, defaultFireSusceptibility, defaultFireSpread]
    rw [hzero] at hlt
    exact absurd hlt (not_lt.mpr (hroll b p))
  simp [hnot]

theorem water_succession_cell (r : ℚ) :
    undisturbed_succession_cell defaultTransitionProbabilities .Water r = .Water := by
  by_cases h : r < 1 <;>
    norm_num [undisturbed_succession_cell, TransitionProbabilities.choose_transition,
      TransitionProbabilities.get, defaultTransitionProbabilities,
      TileKind.undisturbed_transition_probabilities, choose_weighted, pick_weighted, h]

theorem water_start_fires_cell (r : ℚ) (hr : 0 ≤ r) :
    start_fires_cell defaultFireSusceptibility .Water r = .Water := by
  have hget : defaultFireSusceptibility.get .Water = 0 := by
    norm_num [FireSusceptibility.get, defaultFireSusceptibility]
  rw [start_fires_cell, hget, if_neg (not_lt.mpr hr)]

theorem water_tick (g : Grid) (r : TickRolls) (hr : r.Nonneg) (p : Position)
    (hw : g.lookup p = some .Water) :
    (tick defaultFireSusceptibility defaultFireSpread defaultTransitionProbabilities
      g r).lookup p = some .Water := by
  have h1 := water_preserved_spread g (g.map fun e => e.1) r.pass1 hr.1 p hw
  unfold tick
  rw [lookup_start_fires, lookup_undisturbed_succession, h1]
  simp only [Option.map_some']
  rw [water_succession_cell, water_start_fires_cell _ (hr.2 p)]

/-- C5: with the default configuration a Water cell never changes kind and
never ignites across any number of ticks: the Pass 1 and Pass 3 rolls
against it always fail (its scaled susceptibility is `0`) and the Pass 2
table for Water is the pure self-transition. -/
theorem C5_water_never_changes (g : Grid) (rs : List TickRolls)
    (hr : ∀ r ∈ rs, r.Nonneg) (p : Position) (hw : g.lookup p = some .Water) :
    (ticks defaultFireSusceptibility defaultFireSpread defaultTransitionProbabilities
      g rs).lookup p = some .Water := by
  revert hr hw
  induction rs generalizing g with
  | nil => exact fun _ hw => hw
  | cons r rest ih =>
    intro hr hw
    exact ih
      (tick defaultFireSusceptibility defaultFireSpread defaultTransitionProbabilities g r)
      (fun x hx => hr x (List.mem_cons_of_mem r hx))
      (water_tick g r (hr r (List.mem_cons_self r rest)) p hw)

/-- Witness for C5: a water tile adjacent to a burning tile survives two
ticks of all-zero rolls unchanged. -/
theorem C5_water_never_changes_witness :
    (ticks defaultFireSusceptibility defaultFireSpread defaultTransitionProbabilities
      [(⟨0, 0⟩, .Fire), (⟨0, 1⟩, .Water)]
      [⟨fun _ _ => 0, fun _ => 0, fun _ => 0⟩,
       ⟨fun _ _ => 0, fun _ => 0, fun _ => 0⟩]).lookup ⟨0, 1⟩ = some .Water :=
  C5_water_never_changes [(⟨0, 0⟩, .Fire), (⟨0, 1⟩, .Water)]
    [⟨fun _ _ => 0, fun _ => 0, fun _ => 0⟩, ⟨fun _ _ => 0, fun _ => 0, fun _ => 0⟩]
    (by
      intro r hrm
      simp only [List.mem_cons, List.not_mem_nil, or_false] at hrm
      rcases hrm with rfl | rfl <;>
        exact ⟨fun _ _ => le_refl 0, fun _ => le_refl 0⟩)
    ⟨0, 1⟩ (by decide)

/-! No successional regression (C10). -/

theorem succession_cell_two (tp : TransitionProbabilities) (k k2 : TileKind) (r : ℚ)
    (htab : tp.get k = some [(k, 1), (k2, 1 / 2)]) :
    undisturbed_succession_cell tp k r = k ∨ undisturbed_succession_cell tp k r = k2 := by
  unfold undisturbed_succession_cell TransitionProbabilities.choose_transition
  rw [htab]
  by_cases h1 : r < 1
  · left; norm_num [choose_weighted, pick_weighted, h1]
  · by_cases h2 : r - 1 < 1 / 2
    · right; norm_num [choose_weighted, pick_weighted, h1, h2]
    · left; norm_num [choose_weighted, pick_weighted, h1, h2]

theorem succession_cell_one (tp : TransitionProbabilities) (k : TileKind) (r : ℚ)
    (htab : tp.get k = some [(k, 1)]) :
    undisturbed_succession_cell tp k r = k := by
  unfold undisturbed_succession_cell TransitionProbabilities.choose_transition
  rw [htab]
  by_cases h1 : r < 1 <;> norm_num [choose_weighted, pick_weighted, h1]

/-- C10: undisturbed succession never regresses a non-burning cell — every
positively weighted outcome in a non-Fire kind's table is the kind itself or
its single next successional kind, the Pass 2 roll therefore lands on the
kind itself or its successor (so the successional stage never decreases),
and ShadeTolerantForest is a fixed point of Pass 2. -/
theorem C10_succession_never_regresses (k : TileKind) (hk : k ≠ .Fire) (r : ℚ) :
    (∀ x ∈ k.undisturbed_transition_probabilities, 0 < x.2 →
      x.1 = k ∨ x.1 = nextStage k) ∧
    (undisturbed_succession_cell defaultTransitionProbabilities k r = k ∨
      undisturbed_succession_cell defaultTransitionProbabilities k r = nextStage k) ∧
    stage k ≤ stage (undisturbed_succession_cell defaultTransitionProbabilities k r) ∧
    undisturbed_succession_cell defaultTransitionProbabilities .ShadeTolerantForest r =
      .ShadeTolerantForest := by
  have hstf : undisturbed_succession_cell defaultTransitionProbabilities
      .ShadeTolerantForest r = .ShadeTolerantForest :=
    succession_cell_one defaultTransitionProbabilities .ShadeTolerantForest r rfl
  have hsn : undisturbed_succession_cell defaultTransitionProbabilities k r = k ∨
      undisturbed_succession_cell defaultTransitionProbabilities k r = nextStage k := by
    cases k with
    | Fire => exact absurd rfl hk
    | Meadow => exact succession_cell_two defaultTransitionProbabilities _ _ r rfl
    | Shrubland => exact succession_cell_two defaultTransitionProbabilities _ _ r rfl
    | ShadeIntolerantForest =>
      exact succession_cell_two defaultTransitionProbabilities _ _ r rfl
    | ShadeTolerantForest =>
      exact Or.inl (succession_cell_one defaultTransitionProbabilities _ r rfl)
    | Water => exact Or.inl (succession_cell_one defaultTransitionProbabilities _ r rfl)
  refine ⟨?_, hsn, ?_, hstf⟩
  · intro x hx _
    cases k with
    | Fire => exact absurd rfl hk
    | Meadow =>
      simp only [TileKind.undisturbed_transition_probabilities, List.mem_cons,
        List.not_mem_nil, or_false] at hx
      rcases hx with rfl | rfl
      · exact Or.inl rfl
      · exact Or.inr rfl
    | Shrubland =>
      simp only [TileKind.undisturbed_transition_probabilities, List.mem_cons,
        List.not_mem_nil, or_false] at hx
      rcases hx with rfl | rfl
      · exact Or.inl rfl
      · exact Or.inr rfl
    | ShadeIntolerantForest =>
      simp only [TileKind.undisturbed_transition_probabilities, List.mem_cons,
        List.not_mem_nil, or_false] at hx
      rcases hx with rfl | rfl
      · exact Or.inl rfl
      · exact Or.inr rfl
    | ShadeTolerantForest =>
      simp only [TileKind.undisturbed_transition_probabilities, List.mem_cons,
        List.not_mem_nil, or_false] at hx
      rcases hx with rfl
      exact Or.inl rfl
    | Water =>
      simp only [TileKind.undisturbed_transition_probabilities, List.mem_cons,
        List.not_mem_nil, or_false] at hx
      rcases hx with rfl
      exact Or.inl rfl
  · rcases hsn with h | h <;> rw [h]
    cases k <;> simp [stage, nextStage]

/-- Witness for C10 at the Meadow kind and roll 0. -/
theorem C10_succession_never_regresses_witness :
    (∀ x ∈ TileKind.Meadow.undisturbed_transition_probabilities, 0 < x.2 →
      x.1 = TileKind.Meadow ∨ x.1 = nextStage .Meadow) ∧
    (undisturbed_succession_cell defaultTransitionProbabilities .Meadow 0 = .Meadow ∨
      undisturbed_succession_cell defaultTransitionProbabilities .Meadow 0 =
        nextStage .Meadow) ∧
    stage .Meadow ≤
      stage (undisturbed_succession_cell defaultTransitionProbabilities .Meadow 0) ∧
    undisturbed_succession_cell defaultTransitionProbabilities .ShadeTolerantForest 0 =
      .ShadeTolerantForest :=
  C10_succession_never_regresses .Meadow (by decide) 0

/-! The spatial index and its lifecycle hooks (C4). -/

theorem cellsLookup_eq_none_iff (cs : List (Entity × Position)) (e : Entity) :
    cellsLookup cs e = none ↔ e ∉ cs.map (fun c => c.1) := by
  induction cs with
  | nil => simp [cellsLookup]
  | cons c rest ih =>
    rw [cellsLookup]
    by_cases h : c.1 = e
    · simp [h]
    · simp [h, ih, Ne.symm h]

theorem cellsLookup_eq_some_mem (cs : List (Entity × Position)) (e : Entity)
    (p : Position) (h : cellsLookup cs e = some p) : (e, p) ∈ cs := by
  induction cs with
  | nil => simp [cellsLookup] at h
  | cons c rest ih =>
    rw [cellsLookup] at h
    by_cases hc : c.1 = e
    · rw [if_pos hc] at h
      have h2 : c.2 = p := Option.some.inj h
      rw [List.mem_cons]
      left
      rw [Prod.ext_iff]
      exact ⟨hc.symm, h2.symm⟩
    · rw [if_neg hc] at h
      exact List.mem_cons_of_mem c (ih h)

theorem goodState_spawn (s : IndexState) (e : Entity) (p : Position)
    (hg : GoodState s) (he : cellsLookup s.cells e = none)
    (hp : p ∉ s.cells.map (fun c => c.2)) :
    GoodState (applyOp s (.spawn e p)) := by
  obtain ⟨hsync, hnp, hne, hnk⟩ := hg
  have hkey : ∀ q ∈ s.index, q.1 ≠ p := by
    intro q hq hqp
    apply hp
    have : (q.2, q.1) ∈ s.cells := (hsync q.2 q.1).mpr (by simpa using hq)
    rw [List.mem_map]
    exact ⟨(q.2, q.1), this, hqp⟩
  have hfilter : s.index.filter (fun q => decide (q.1 ≠ p)) = s.index :=
    List.filter_eq_self.mpr (fun q hq => decide_eq_true (hkey q hq))
  have hemem : e ∉ s.cells.map (fun c => c.1) := (cellsLookup_eq_none_iff _ _).mp he
  refine ⟨?_, ?_, ?_, ?_⟩
  · intro e' p'
    show (e', p') ∈ (e, p) :: s.cells ↔ (p', e') ∈ idxInsert s.index p e
    rw [idxInsert, hfilter, List.mem_cons, List.mem_cons]
    apply or_congr
    · rw [Prod.ext_iff, Prod.ext_iff]
      exact ⟨fun h => ⟨h.2, h.1⟩, fun h => ⟨h.2, h.1⟩⟩
    · exact hsync e' p'
  · show ((((e, p) :: s.cells).map fun c => c.2)).Nodup
    rw [List.map_cons]
    exact List.nodup_cons.mpr ⟨hp, hnp⟩
  · show ((((e, p) :: s.cells).map fun c => c.1)).Nodup
    rw [List.map_cons]
    exact List.nodup_cons.mpr ⟨hemem, hne⟩
  · show ((idxInsert s.index p e).map fun q => q.1).Nodup
    rw [idxInsert, hfilter, List.map_cons]
    refine List.nodup_cons.mpr ⟨?_, hnk⟩
    intro hmem
    obtain ⟨q, hq, hq1⟩ := List.mem_map.mp hmem
    exact hkey q hq hq1

theorem goodState_despawn (s : IndexState) (e : Entity) (hg : GoodState s) :
    GoodState (applyOp s (.despawn e)) := by
  obtain ⟨hsync, hnp, hne, hnk⟩ := hg
  show GoodState
    (match cellsLookup s.cells e with
     | some p => ⟨s.cells.filter (fun c => decide (c.1 ≠ e)), idxRemove s.index p⟩
     | none => s)
  cases hl : cellsLookup s.cells e with
  | none => exact ⟨hsync, hnp, hne, hnk⟩
  | some p0 =>
    have hmem0 : (e, p0) ∈ s.cells := cellsLookup_eq_some_mem s.cells e p0 hl
    have hside : ∀ e' p', (e', p') ∈ s.cells → (e' ≠ e ↔ p' ≠ p0) := by
      intro e' p' hmem'
      constructor
      · intro hne' hpe
        apply hne'
        have := List.inj_on_of_nodup_map hnp hmem' hmem0 (by simpa using hpe)
        exact congrArg Prod.fst this
      · intro hpe hee
        apply hpe
        have := List.inj_on_of_nodup_map hne hmem' hmem0 (by simpa using hee)
        exact congrArg Prod.snd this
    refine ⟨?_, ?_, ?_, ?_⟩
    · intro e' p'
      show (e', p') ∈ s.cells.filter (fun c => decide (c.1 ≠ e)) ↔
        (p', e') ∈ idxRemove s.index p0
      rw [idxRemove, List.mem_filter, List.mem_filter]
      constructor
      · rintro ⟨hmem', hdec⟩
        have hne' : e' ≠ e := of_decide_eq_true hdec
        exact ⟨(hsync e' p').mp hmem',
          decide_eq_true ((hside e' p' hmem').mp hne')⟩
      · rintro ⟨hidx, hdec⟩
        have hpe : p' ≠ p0 := of_decide_eq_true hdec
        have hmem' : (e', p') ∈ s.cells := (hsync e' p').mpr hidx
        exact ⟨hmem', decide_eq_true ((hside e' p' hmem').mpr hpe)⟩
    · exact List.Nodup.sublist ((List.filter_sublist s.cells).map fun c => c.2) hnp
    · exact List.Nodup.sublist ((List.filter_sublist s.cells).map fun c => c.1) hne
    · exact List.Nodup.sublist ((List.filter_sublist s.index).map fun q => q.1) hnk

theorem goodState_applyOps (s : IndexState) (ops : List IndexOp) (hg : GoodState s)
    (hv : ValidOps s ops) : GoodState (applyOps s ops) := by
  induction ops generalizing s with
  | nil => exact hg
  | cons op rest ih =>
    cases op with
    | spawn e p =>
      obtain ⟨he, hp, hrest⟩ := hv
      exact ih (applyOp s (.spawn e p)) (goodState_spawn s e p hg he hp) hrest
    | despawn e =>
      exact ih (applyOp s (.despawn e)) (goodState_despawn s e hg) hv

theorem validOps_take (s : IndexState) (ops : List IndexOp) (n : ℕ)
    (hv : ValidOps s ops) : ValidOps s (ops.take n) := by
  induction ops generalizing s n with
  | nil => simpa using hv
  | cons op rest ih =>
    cases n with
    | zero => exact trivial
    | succ m =>
      cases op with
      | spawn e p =>
        obtain ⟨he, hp, hrest⟩ := hv
        exact ⟨he, hp, ih (applyOp s (.spawn e p)) m hrest⟩
      | despawn e =>
        exact ih (applyOp s (.despawn e)) m hv

/-- Counterexample to C4 as stated over all operation sequences: spawning
two entities at the same position makes the `HashMap` insert of the second
overwrite the first entity's index entry while both cells stay live, so the
cells–index correspondence fails after the second insert. -/
theorem C4_counterexample :
    ¬ InSync (applyOps emptyIndexState
      [.spawn 0 ⟨0, 0⟩, .spawn 1 ⟨0, 0⟩]) := by
  intro h
  exact absurd ((h 0 ⟨0, 0⟩).mp (by decide)) (by decide)

/-- C4 (amended): for every operation sequence in which each spawn uses a
fresh entity and a position not currently occupied by a live cell — which
map generation guarantees, and which the spec's own "no two live cells
share a Position" invariant demands — after each operation the index and
the live cells are in bijection: an entity owns a position exactly when the
index maps that position to it, and positions, entities and index keys are
each duplicate-free. -/
theorem C4_index_bijection (ops : List IndexOp) (hv : ValidOps emptyIndexState ops)
    (n : ℕ) : GoodState (applyOps emptyIndexState (ops.take n)) :=
  goodState_applyOps emptyIndexState (ops.take n)
    ⟨fun _ _ => by simp [emptyIndexState], by simp [emptyIndexState],
      by simp [emptyIndexState], by simp [emptyIndexState]⟩
    (validOps_take emptyIndexState ops n hv)

/-- Witness for C4: spawn two tiles at distinct positions, despawn the
first, checked after the first two of the three operations. -/
theorem C4_index_bijection_witness :
    GoodState (applyOps emptyIndexState
      ([.spawn 0 ⟨0, 0⟩, .spawn 1 ⟨0, 1⟩, .despawn 0].take 2)) :=
  C4_index_bijection [.spawn 0 ⟨0, 0⟩, .spawn 1 ⟨0, 1⟩, .despawn 0]
    (by
      refine ⟨rfl, by decide, ?_⟩
      refine ⟨rfl, by decide, ?_⟩
      exact trivial)
    2

/-- C7: all random sampling is driven by the one deterministically seeded
shared source threaded through the tick, so two independent runs from the
same seed and the same initial configuration produce identical sequences of
per-tick grid snapshots. -/
theorem C7_deterministic_replay (susc : FireSusceptibility) (fs : FireSpread)
    (tp : TransitionProbabilities) (g1 g2 : Grid) (seed1 seed2 : ℕ) (n : ℕ)
    (hg : g1 = g2) (hs : seed1 = seed2) :
    snapshots_rng susc fs tp g1 ⟨seed1⟩ n = snapshots_rng susc fs tp g2 ⟨seed2⟩ n := by
  rw [hg, hs]

/-- Witness for C7: two runs of two ticks from seed 42 on a one-meadow grid
coincide. -/
theorem C7_deterministic_replay_witness :
    snapshots_rng defaultFireSusceptibility defaultFireSpread
      defaultTransitionProbabilities [(⟨0, 0⟩, .Meadow)] ⟨42⟩ 2 =
    snapshots_rng defaultFireSusceptibility defaultFireSpread
      defaultTransitionProbabilities [(⟨0, 0⟩, .Meadow)] ⟨42⟩ 2 :=
  C7_deterministic_replay defaultFireSusceptibility defaultFireSpread
    defaultTransitionProbabilities [(⟨0, 0⟩, .Meadow)] [(⟨0, 0⟩, .Meadow)] 42 42 2
    rfl rfl

end CellularAutomata
